import Mathlib

/-
Verification of the Intcode virtual machine repository (ednl/intcode).

The development shallowly embeds the C sources:
  * src/intcode.c      -- the most complete variant: VM with three addressing
                          modes, on-demand memory growth, a shared bounded FIFO,
                          the amplifier pipeline (maxamp) and next_perm.
  * src/unnamed/part_000 -- the day-7 variant with per-VM phase state (namespace P0).

Machine integers (int64_t) are modelled as unbounded Int: every arithmetic
operation the programs perform is exact unless it overflows int64, and signed
overflow is undefined behaviour in C, so the unbounded model agrees with every
defined execution.  C's `/` and `%` on signed integers truncate toward zero,
so they are modelled by Int.tdiv / Int.tmod.  Fallible operations return a
result type `Res`; `fatal()` in the source terminates the process, modelled by
the error value.  Reads the source performs without a bounds check, which are
undefined behaviour when out of range, are modelled with List.getD (default 0);
the theorems below only rely on them inside the ranges the source establishes.
-/

namespace Intcode

/- Error codes of intcode.c (enum errcode); the file-loading codes are out of
scope (the loader is an external collaborator per the spec). -/
inductive ErrCode where
  | ERR_MEM_OUT
  | ERR_IP_LO
  | ERR_IP_HI
  | ERR_IP_INSTR
  | ERR_PAR_READ
  | ERR_PAR_WRITE
  deriving DecidableEq, Repr

/- Result of a fallible computation: `err` models a call to fatal(e). -/
inductive Res (α : Type) where
  | err (e : ErrCode)
  | ok (a : α)
  deriving DecidableEq, Repr

/- Language definition (struct lang): opcode, total / read / write param counts. -/
structure Lang where
  op : Int
  pc : Nat
  ic : Nat
  oc : Nat
  deriving DecidableEq, Repr

/- static const Lang lang[] of intcode.c. -/
def lang : List Lang :=
  [⟨0, 0, 0, 0⟩,  -- NOP
   ⟨1, 3, 2, 1⟩,  -- ADD
   ⟨2, 3, 2, 1⟩,  -- MUL
   ⟨3, 1, 0, 1⟩,  -- INP
   ⟨4, 1, 1, 0⟩,  -- OUT
   ⟨5, 2, 2, 0⟩,  -- JNZ
   ⟨6, 2, 2, 0⟩,  -- JPZ
   ⟨7, 3, 2, 1⟩,  -- LT
   ⟨8, 3, 2, 1⟩,  -- EQ
   ⟨9, 1, 1, 0⟩]  -- RBO

def langNOP : Lang := ⟨0, 0, 0, 0⟩

/- getdef of intcode.c.  The C compares the int-typed opcode with the size_t
langsize, converting a negative opcode to a huge unsigned value, so negative
and large opcodes (HLT = 99 included) both select the NOP definition.  The
linear-search fallback is kept although for 0 <= op < 10 the table always
satisfies lang[op].op == op. -/
def getdef (op : Int) : Lang :=
  if op < 0 ∨ (10 : Int) ≤ op then langNOP
  else
    let d := lang.getD op.toNat langNOP
    if d.op = op then d
    else (lang.find? (fun e => e.op == op)).getD langNOP

/- struct virtualmachine: mem together with its length models the mem
pointer plus the size field. -/
structure VM where
  mem : List Int
  ip : Int
  base : Int
  halted : Bool
  deriving DecidableEq, Repr

instance : Inhabited VM := ⟨⟨[], 0, 0, false⟩⟩

/- setsize of intcode.c: realloc to newsize and zero-fill the new cells, only
ever growing (no-op when newsize <= size).  Allocation failure (ERR_MEM_OUT)
is not modelled: the model's memory is unbounded. -/
def setsize (m : List Int) (newsize : Nat) : List Int :=
  if m.length < newsize then m ++ List.replicate (newsize - m.length) 0 else m

/- copyvm of intcode.c: grow dst to at least src's size, memcpy src's cells,
zero the left-over tail, and copy ip, base and halted. -/
def copyvm (dst src : VM) : VM :=
  let grown := setsize dst.mem src.mem.length
  { mem := src.mem ++ List.replicate (grown.length - src.mem.length) 0,
    ip := src.ip, base := src.base, halted := src.halted }

/- The process boundary: stdin is the stream of integers getline+atoll would
produce, stdout the integers printed by output(), prompts the number of
"? " prompts printed, tty the isatty(STDIN_FILENO) result. -/
structure Console where
  stdin : List Int
  stdout : List Int
  tty : Bool
  prompts : Nat
  deriving DecidableEq, Repr

/- input() of intcode.c: prompt when interactive, then read one line; a failed
getline (exhausted stdin) leaves val = 0. -/
def input (c : Console) : Int × Console :=
  let c1 := if c.tty then { c with prompts := c.prompts + 1 } else c
  match c1.stdin with
  | [] => (0, c1)
  | x :: rest => (x, { c1 with stdin := rest })

/- output() of intcode.c. -/
def output (v : Int) (c : Console) : Console :=
  { c with stdout := c.stdout ++ [v] }

def FIFOSIZE : Nat := 100

/- The global ring buffer fifobuf with fifohead / fifotail. -/
structure Fifo where
  buf : List Int
  head : Nat
  tail : Nat
  deriving DecidableEq, Repr

/- fifopop of intcode.c: when the queue is empty fall back to input(). -/
def fifopop (f : Fifo) (c : Console) : Int × Fifo × Console :=
  if f.head = f.tail then
    let (v, c') := input c
    (v, f, c')
  else
    (f.buf.getD f.tail 0, { f with tail := (f.tail + 1) % FIFOSIZE }, c)

/- fifopush of intcode.c: when the next head collides with the tail the value
is printed, but it is still stored and the head still advances. -/
def fifopush (v : Int) (f : Fifo) (c : Console) : Fifo × Console :=
  let nexthead := (f.head + 1) % FIFOSIZE
  let c' := if nexthead = f.tail then output v c else c
  ({ f with buf := f.buf.set f.head v, head := nexthead }, c')

/- The shared mutable context of run(): the fifo and the process boundary. -/
structure Sys where
  fifo : Fifo
  cons : Console
  deriving DecidableEq, Repr

def syspush (v : Int) (s : Sys) : Sys :=
  let (f, c) := fifopush v s.fifo s.cons
  ⟨f, c⟩

def syspop (s : Sys) : Int × Sys :=
  let (v, f, c) := fifopop s.fifo s.cons
  (v, ⟨f, c⟩)

/- Bit 0 of the two's-complement int64 representation of m, as tested by
`mode & IMM` (IMM = 1) in the C: for every int64 value, bit 0 equals
m mod 2 with a non-negative remainder. -/
def bitIMM (m : Int) : Int := m.emod 2

/- Bit 1 as tested by `mode & REL` (REL = 2): for every int64 value, bit 1 is
set exactly when m mod 4 (non-negative remainder) is 2 or 3. -/
def bitREL (m : Int) : Int := if 2 ≤ m.emod 4 then 2 else 0

/- The growth the parameter-resolution code performs:
`if ((size_t)q >= pv->size) setsize(pv, q + 1);` for a q already checked
non-negative. -/
def growIfNeeded (v : VM) (a : Nat) : VM :=
  if v.mem.length ≤ a then { v with mem := setsize v.mem (a + 1) } else v

/- One iteration of the read-parameter loop of run() (intcode.c lines 275-292):
fetch the immediate cell, then for a positional or relative mode resolve and
dereference the address, growing memory on demand and faulting on a negative
address. -/
def readOne (ins : Int) (v : VM) : Res (VM × Int) :=
  let q := v.mem.getD v.ip.toNat 0
  let v1 : VM := { v with ip := v.ip + 1 }
  let mode := ins.tmod 10
  if bitIMM mode = 0 then
    let q1 := if bitREL mode ≠ 0 then q + v1.base else q
    if q1 < 0 then .err .ERR_PAR_READ
    else
      let v2 := growIfNeeded v1 q1.toNat
      .ok (v2, v2.mem.getD q1.toNat 0)
  else .ok (v1, q)

/- The whole read-parameter loop: n parameters, dividing the mode digits by 10
each round; returns the remaining mode digits for the write parameter. -/
def readPars : Nat → Int → VM → Res (VM × Int × List Int)
  | 0, ins, v => .ok (v, ins, [])
  | n + 1, ins, v =>
    match readOne ins v with
    | .err e => .err e
    | .ok (v1, p) =>
      match readPars n (ins.tdiv 10) v1 with
      | .err e => .err e
      | .ok (v2, ins2, ps) => .ok (v2, ins2, p :: ps)

/- The write-parameter block of run() (intcode.c lines 294-307): the address is
taken immediately (no dereference), offset by base in relative mode, checked
non-negative, and memory grows on demand. -/
def writeOne (ins : Int) (v : VM) : Res (VM × Nat) :=
  let q := v.mem.getD v.ip.toNat 0
  let v1 : VM := { v with ip := v.ip + 1 }
  let mode := ins.tmod 10
  let q1 := if bitREL mode ≠ 0 then q + v1.base else q
  if q1 < 0 then .err .ERR_PAR_WRITE
  else .ok (growIfNeeded v1 q1.toNat, q1.toNat)

/- The fetch / decode / bounds-check prefix of one loop iteration of run()
(intcode.c lines 257-271): check ip, fetch the instruction cell, advance ip,
decode the opcode (in % 100), and check that ip + pc stays below size for
opcodes with parameters.  Returns (op, remaining mode digits, def, vm). -/
def fetchDecode (v : VM) : Res (Int × Int × Lang × VM) :=
  if v.ip < 0 then .err .ERR_IP_LO
  else if (v.mem.length : Int) ≤ v.ip then .err .ERR_IP_HI
  else
    let c := v.mem.getD v.ip.toNat 0
    let v1 : VM := { v with ip := v.ip + 1 }
    let op := c.tmod 100
    let df := getdef op
    if 0 < df.pc ∧ (v.mem.length : Int) ≤ v1.ip + df.pc then .err .ERR_IP_INSTR
    else .ok (op, c.tdiv 100, df, v1)

/- Result of one executed instruction: `ret` is the `return` after fifopush in
the OUT case; everything else continues the loop. -/
inductive StepRes where
  | cont (v : VM) (s : Sys)
  | ret (v : VM) (s : Sys)
  deriving DecidableEq, Repr

/- The switch statement of run() (intcode.c lines 309-321).  p is the parameter
array: resolved read values followed, for writing opcodes, by the checked write
address.  An opcode with no case (op 10..98 or negative) does nothing. -/
def exec (op : Int) (p : List Int) (v : VM) (s : Sys) : StepRes :=
  if op = 1 then .cont { v with mem := v.mem.set (p.getD 2 0).toNat (p.getD 0 0 + p.getD 1 0) } s
  else if op = 2 then .cont { v with mem := v.mem.set (p.getD 2 0).toNat (p.getD 0 0 * p.getD 1 0) } s
  else if op = 3 then
    .cont { v with mem := v.mem.set (p.getD 0 0).toNat (syspop s).1 } (syspop s).2
  else if op = 4 then .ret v (syspush (p.getD 0 0) s)
  else if op = 5 then .cont (if p.getD 0 0 ≠ 0 then { v with ip := p.getD 1 0 } else v) s
  else if op = 6 then .cont (if p.getD 0 0 = 0 then { v with ip := p.getD 1 0 } else v) s
  else if op = 7 then .cont { v with mem := v.mem.set (p.getD 2 0).toNat (if p.getD 0 0 < p.getD 1 0 then 1 else 0) } s
  else if op = 8 then .cont { v with mem := v.mem.set (p.getD 2 0).toNat (if p.getD 0 0 = p.getD 1 0 then 1 else 0) } s
  else if op = 9 then .cont { v with base := v.base + p.getD 0 0 } s
  else if op = 99 then .cont { v with halted := true } s
  else .cont v s

/- The VM component of a step result. -/
def StepRes.vm : StepRes → VM
  | .cont v _ => v
  | .ret v _ => v

/- One full iteration of the while loop of run() (after the halted test). -/
def step (v : VM) (s : Sys) : Res StepRes :=
  match fetchDecode v with
  | .err e => .err e
  | .ok (op, ins, df, v1) =>
    match readPars df.ic ins v1 with
    | .err e => .err e
    | .ok (v2, ins2, ps) =>
      if df.oc ≠ 0 then
        match writeOne ins2 v2 with
        | .err e => .err e
        | .ok (v3, t) => .ok (exec op (ps ++ [(t : Int)]) v3 s)
      else .ok (exec op ps v2 s)

/- run() of intcode.c.  The C loop has no built-in bound, so the model takes
fuel; `none` means the loop was still running after `fuel` iterations.  The
halted test is the loop condition, so it is performed before fuel is spent. -/
def run : Nat → VM → Sys → Option (Res (VM × Sys))
  | 0, v, s => if v.halted then some (.ok (v, s)) else none
  | fuel + 1, v, s =>
    if v.halted then some (.ok (v, s))
    else
      match step v s with
      | .err e => some (.err e)
      | .ok (.ret v' s') => some (.ok (v', s'))
      | .ok (.cont v' s') => run fuel v' s'

/- next_perm of intcode.c (identical in part_000 and to next_lex_perm of
perm.c): advance an array to its next lexicographic permutation in place,
returning 0 (here: none) when the array is the last permutation, in which
case it is left unchanged.  The C is only ever called with n = STAGES = 5;
the n = 0 guard covers the Lean-side totality. -/
def permFindK (a : List Int) : Nat → Nat
  | 0 => 0
  | k + 1 => if a.getD k 0 ≥ a.getD (k + 1) 0 then permFindK a k else k + 1

def permFindL (a : List Int) (pivot : Int) : Nat → Nat
  | 0 => 0
  | l + 1 => if a.getD (l + 1) 0 ≤ pivot then permFindL a pivot l else l + 1

def permSwap (a : List Int) (i j : Nat) : List Int :=
  (a.set i (a.getD j 0)).set j (a.getD i 0)

def next_perm (a : List Int) : Option (List Int) :=
  match a.length with
  | 0 => none
  | n + 1 =>
    let k0 := permFindK a n
    if k0 = 0 then none
    else
      let k := k0 - 1
      let l := permFindL a (a.getD k 0) n
      let b := permSwap a k l
      some (b.take (k + 1) ++ (b.drop (k + 1)).reverse)

/- The while (next_perm) do-loop visits the start value and then every
successor until next_perm reports the last permutation. -/
def permChain : Nat → List Int → List (List Int)
  | 0, a => [a]
  | fuel + 1, a =>
    match next_perm a with
    | none => [a]
    | some b => a :: permChain fuel b

/- The accumulation of the do-while loop of maxamp: amax starts at -1 and is
overwritten whenever a trial result exceeds it, given the result of each
trial as a function of the phase permutation alone. -/
def maxampFold (f : List Int → Int) (perms : List (List Int)) : Int :=
  perms.foldl (fun amax p => if f p > amax then f p else amax) (-1)

def STAGES : Nat := 5

/- The first-round loop of maxamp (intcode.c lines 362-369): for each stage,
push its phase and the running value, run it, and pop its output. -/
def round1 (rfuel : Nat) : List Int → List VM → Sys → Int → Option (Res (List VM × Sys × Int))
  | [], vms, s, a => some (.ok (vms, s, a))
  | _ :: _, [], s, a => some (.ok ([], s, a))
  | ph :: pt, v :: vt, s, a =>
    let s1 := syspush ph s
    let s2 := syspush a s1
    match run rfuel v s2 with
    | none => none
    | some (.err e) => some (.err e)
    | some (.ok (v', s3)) =>
      let (a', s4) := syspop s3
      match round1 rfuel pt vt s4 a' with
      | none => none
      | some (.err e) => some (.err e)
      | some (.ok (vt', s5, a'')) => some (.ok (v' :: vt', s5, a''))

/- The part-2 feedback loop of maxamp (intcode.c lines 373-377):
while (!vm[i].halted) { run(&vm[i++]); i %= STAGES; } -/
def feedback (rfuel : Nat) : Nat → List VM → Nat → Sys → Option (Res (List VM × Nat × Sys))
  | 0, vms, i, s => if (vms.getD i default).halted then some (.ok (vms, i, s)) else none
  | fuel + 1, vms, i, s =>
    if (vms.getD i default).halted then some (.ok (vms, i, s))
    else
      match run rfuel (vms.getD i default) s with
      | none => none
      | some (.err e) => some (.err e)
      | some (.ok (v', s')) => feedback rfuel fuel (vms.set i v') ((i + 1) % STAGES) s'

/- One part-2 trial of maxamp for a fixed phase permutation: fresh amps copied
from the reference VM, the first round, the feedback loop seeded with the
round-1 result, and the final pop.  Returns the final amps, the loop exit
index, the final shared state and the trial result. -/
def trial2 (rfuel lfuel : Nat) (ref : VM) (phases : List Int) (vms0 : List VM) (s : Sys) :
    Option (Res (List VM × Nat × Sys × Int)) :=
  let vms := vms0.map (fun d => copyvm d ref)
  match round1 rfuel phases vms s 0 with
  | none => none
  | some (.err e) => some (.err e)
  | some (.ok (vms1, s1, a)) =>
    let s2 := syspush a s1
    match feedback rfuel lfuel vms1 0 s2 with
    | none => none
    | some (.err e) => some (.err e)
    | some (.ok (vms2, i, s3)) =>
      let (a2, s4) := syspop s3
      some (.ok (vms2, i, s4, a2))

/- maxamp for part = 1 (intcode.c lines 346-385 without the part-2 block):
the do-while over permutations, threading the amps and the shared fifo
between iterations exactly as the C globals do. -/
def maxamp1 (rfuel : Nat) (ref : VM) : Nat → List VM → List Int → Int → Sys → Option (Res Int)
  | 0, _, _, _, _ => none
  | fuel + 1, vms, phase, amax, s =>
    let vms' := vms.map (fun d => copyvm d ref)
    match round1 rfuel phase vms' s 0 with
    | none => none
    | some (.err e) => some (.err e)
    | some (.ok (vms'', s', a)) =>
      let amax' := if a > amax then a else amax
      match next_perm phase with
      | none => some (.ok amax')
      | some ph' => maxamp1 rfuel ref fuel vms'' ph' amax' s'

/- The do-while loop of maxamp part 1, presented one iteration at a time over
its loop state (amps, phase array, amax, shared fifo/console): `more` is a
still-running state when fuel runs out, `done` the returned amax.  maxamp1
is proved equal to iterating this (maxamp1_eq_maxampGo below); the split
form lets long searches be evaluated in stages. -/
inductive GoRes where
  | more (st : List VM × List Int × Int × Sys)
  | done (amax : Int)
  deriving DecidableEq, Repr

def maxampGo (rfuel : Nat) (ref : VM) :
    Nat → List VM × List Int × Int × Sys → Option (Res GoRes)
  | 0, st => some (.ok (.more st))
  | fuel + 1, (vms, phase, amax, s) =>
    let vms' := vms.map (fun d => copyvm d ref)
    match round1 rfuel phase vms' s 0 with
    | none => none
    | some (.err e) => some (.err e)
    | some (.ok (vms'', s', a)) =>
      let amax' := if a > amax then a else amax
      match next_perm phase with
      | none => some (.ok (.done amax'))
      | some ph' => maxampGo rfuel ref fuel (vms'', ph', amax', s')

end Intcode

/-
The day-7 variant src/unnamed/part_000: each VM carries its own phase and a
phased flag; run takes one input value and returns one output value; there is
no bounds checking and no on-demand growth.  A read or write the C performs
out of range (undefined behaviour) is modelled as a default-0 read / no-op
write; the theorems below never depend on those cases.
-/

namespace P0

structure VM0 where
  mem : List Int
  ip : Int
  base : Int
  phase : Int
  phased : Bool
  halted : Bool
  deriving DecidableEq, Repr

instance : Inhabited VM0 := ⟨⟨[], 0, 0, 0, false, false⟩⟩

/- The (ic, oc) columns of part_000's lang[]; as in intcode.c, an opcode
outside 0..9 (negative included, by the int-to-size_t conversion) falls back
to NOP. -/
def lang0 : List (Nat × Nat) :=
  [(0, 0), (2, 1), (2, 1), (0, 1), (1, 0), (2, 0), (2, 0), (2, 1), (2, 1), (1, 0)]

def getdef0 (op : Int) : Nat × Nat :=
  if 0 ≤ op ∧ op < 10 then lang0.getD op.toNat (0, 0) else (0, 0)

/- reset of part_000 (lines 113-131): the buffer is (re)allocated only when it
is smaller than the image, but the size field is set to exactly codesize, and
the image is copied over the first codesize cells — so the logical memory is
exactly the image, even when the previous buffer was larger. -/
def reset (_pvm : VM0) (code : List Int) (phase : Int) : VM0 :=
  { mem := code, ip := 0, base := 0, phase := phase, phased := false, halted := false }

/- The read-parameter loop of part_000's run: switch (mode) treats 2 as
relative (fall through to the dereference), 0 as positional, and any other
digit as immediate. -/
def readPars0 : Nat → Int → VM0 → VM0 × Int × List Int
  | 0, ins, v => (v, ins, [])
  | n + 1, ins, v =>
    let mode := ins.tmod 10
    let par := v.mem.getD v.ip.toNat 0
    let v1 : VM0 := { v with ip := v.ip + 1 }
    let par1 :=
      if mode = 2 then v1.mem.getD (par + v1.base).toNat 0
      else if mode = 0 then v1.mem.getD par.toNat 0
      else par
    let (v2, ins2, ps) := readPars0 n (ins.tdiv 10) v1
    (v2, ins2, par1 :: ps)

inductive Step0Res where
  | cont (v : VM0) (empty : Bool) (c : Intcode.Console)
  | ret (v : VM0) (val : Int) (c : Intcode.Console)
  deriving DecidableEq, Repr

/- One iteration of part_000's run loop (lines 171-208). -/
def step0 (v : VM0) (inputval : Int) (empty : Bool) (c : Intcode.Console) : Step0Res :=
  let instr := v.mem.getD v.ip.toNat 0
  let v1 : VM0 := { v with ip := v.ip + 1 }
  let op := instr.tmod 100
  let ins := instr.tdiv 100
  let df := getdef0 op
  let (v2, ins2, ps0) := readPars0 df.1 ins v1
  let (v3, p) :=
    if df.2 ≠ 0 then
      let q := v2.mem.getD v2.ip.toNat 0
      let q1 := if ins2.tmod 10 = 2 then q + v2.base else q
      ({ v2 with ip := v2.ip + 1 }, ps0 ++ [q1])
    else (v2, ps0)
  if op = 1 then .cont { v3 with mem := v3.mem.set (p.getD 2 0).toNat (p.getD 0 0 + p.getD 1 0) } empty c
  else if op = 2 then .cont { v3 with mem := v3.mem.set (p.getD 2 0).toNat (p.getD 0 0 * p.getD 1 0) } empty c
  else if op = 3 then
    let (val, c') :=
      if v3.phased then (if empty then Intcode.input c else (inputval, c))
      else (v3.phase, c)
    .cont { v3 with mem := v3.mem.set (p.getD 0 0).toNat val, phased := true } v3.phased c'
  else if op = 4 then .ret v3 (p.getD 0 0) c
  else if op = 5 then .cont (if p.getD 0 0 ≠ 0 then { v3 with ip := p.getD 1 0 } else v3) empty c
  else if op = 6 then .cont (if p.getD 0 0 = 0 then { v3 with ip := p.getD 1 0 } else v3) empty c
  else if op = 7 then .cont { v3 with mem := v3.mem.set (p.getD 2 0).toNat (if p.getD 0 0 < p.getD 1 0 then 1 else 0) } empty c
  else if op = 8 then .cont { v3 with mem := v3.mem.set (p.getD 2 0).toNat (if p.getD 0 0 = p.getD 1 0 then 1 else 0) } empty c
  else if op = 9 then .cont { v3 with base := v3.base + p.getD 0 0 } empty c
  else if op = 99 then .cont { v3 with halted := true } empty c
  else .cont v3 empty c

/- run of part_000 (lines 165-211): the local one-slot input state `empty`
starts false on every call; on OUT the value is returned; when the loop exits
because halted is (or becomes) true, inputval is returned unchanged. -/
def run0 : Nat → VM0 → Int → Bool → Intcode.Console → Option (VM0 × Int × Intcode.Console)
  | 0, v, inputval, _, c => if v.halted then some (v, inputval, c) else none
  | fuel + 1, v, inputval, empty, c =>
    if v.halted then some (v, inputval, c)
    else
      match step0 v inputval empty c with
      | .ret v' val c' => some (v', val, c')
      | .cont v' empty' c' => run0 fuel v' inputval empty' c'

/- run(pvm, inputval) of part_000. -/
def run (fuel : Nat) (v : VM0) (inputval : Int) (c : Intcode.Console) :
    Option (VM0 × Int × Intcode.Console) :=
  run0 fuel v inputval false c

end P0

namespace Intcode

/- The effective address a positional or relative parameter resolves to
(before the sign and size checks): the raw cell, plus the relative base when
bit 1 of the mode digit is set. -/
def resolvedAddr (v : VM) (ins : Int) : Int :=
  let raw := v.mem.getD v.ip.toNat 0
  if bitREL (ins.tmod 10) ≠ 0 then raw + v.base else raw

/- Strict lexicographic order on integer lists, used to state the enumeration
order of the permutation search. -/
def lexLtb : List Int → List Int → Bool
  | [], [] => false
  | [], _ :: _ => true
  | _ :: _, [] => false
  | x :: xs, y :: ys => if x < y then true else if x = y then lexLtb xs ys else false

/- The empty shared state at the start of the day-7 search: a zeroed fifo and
a quiet, non-interactive process boundary. -/
def s0 : Sys := ⟨⟨List.replicate 100 0, 0, 0⟩, ⟨[], [], false, 0⟩⟩

/- The amp slots before the first copyvm: vm[] is zero-initialised. -/
def amps0 : List VM := List.replicate STAGES ⟨[], 0, 0, false⟩

/- A phase-controlled countdown program for exercising the feedback loop:
store the phase at 14 (INP), then repeatedly read a value into 15 (INP),
decrement cell 14, output cell 15 and loop back while cell 14 is non-zero.
A stage with phase p emits p outputs and then halts on its (p+1)-th run. -/
def progC4 : List Int := [3, 14, 3, 15, 1001, 14, -1, 14, 4, 15, 1005, 14, 2, 99]

/- The last-amp observation of one part-2 trial of maxamp on progC4 with the
first part-2 phase permutation 5,6,7,8,9: whether the last instance has
halted when the feedback loop exits, the exit index, and the trial result. -/
def cexC4view : Option (Bool × Nat × Int) :=
  match trial2 60 40 ⟨progC4, 0, 0, false⟩ [5, 6, 7, 8, 9] amps0 s0 with
  | some (.ok (vms, i, _, a)) => some ((vms.getD 4 default).halted, i, a)
  | _ => none

/- A program whose pipeline result is -2 for every phase permutation: consume
the phase into cell 7 and the input into cell 8, then output immediate -2. -/
def progC5 : List Int := [3, 7, 3, 8, 104, -2, 99, 0, 0]

def refC5 : VM := ⟨progC5, 0, 0, false⟩

/- The single-permutation part-1 pipeline result on progC5 (one first-round
pass over fresh amps). -/
def pipe1 (p : List Int) : Option (Res Int) :=
  match round1 10 p (amps0.map (fun d => copyvm d refC5)) s0 0 with
  | some (.ok (_, _, a)) => some (.ok a)
  | some (.err e) => some (.err e)
  | none => none

/- The full part-1 search on progC5 over all 120 permutations. -/
def maxamp1C5 : Option (Res Int) := maxamp1 10 refC5 130 amps0 [0, 1, 2, 3, 4] (-1) s0

end Intcode

namespace Intcode

/- Abstraction of the ring buffer: the number of queued values and the queue
contents in pop order (from tail to head). -/
def Fifo.count (f : Fifo) : Nat := (f.head + FIFOSIZE - f.tail) % FIFOSIZE

def Fifo.toList (f : Fifo) : List Int :=
  (List.range f.count).map (fun i => f.buf.getD ((f.tail + i) % FIFOSIZE) 0)

/- Well-formedness maintained by the C globals: the buffer has the declared
size and both cursors stay below it. -/
def Fifo.wf (f : Fifo) : Prop :=
  f.buf.length = FIFOSIZE ∧ f.head < FIFOSIZE ∧ f.tail < FIFOSIZE

/- The queue is at capacity (99 queued values): one more push makes the head
collide with the tail. -/
def Fifo.isFull (f : Fifo) : Prop := (f.head + 1) % FIFOSIZE = f.tail

instance (f : Fifo) : Decidable f.wf :=
  inferInstanceAs (Decidable (f.buf.length = FIFOSIZE ∧ f.head < FIFOSIZE ∧ f.tail < FIFOSIZE))

instance (f : Fifo) : Decidable f.isFull :=
  inferInstanceAs (Decidable ((f.head + 1) % FIFOSIZE = f.tail))

/- The pairwise check that a list of permutations is strictly increasing in
lexicographic order. -/
def chainLexb : List (List Int) → Bool
  | [] => true
  | [_] => true
  | x :: y :: rest => lexLtb x y && chainLexb (y :: rest)

/- The loop states of the part-1 search on progC5 after 33, 66 and 99 of the
120 iterations, used to evaluate the search in four stages. -/
def midC5a : List VM × List Int × Int × Sys :=
  ([⟨[3, 7, 3, 8, 104, -2, 99, 1, 0], 6, 0, false⟩,
    ⟨[3, 7, 3, 8, 104, -2, 99, 2, -2], 6, 0, false⟩,
    ⟨[3, 7, 3, 8, 104, -2, 99, 3, -2], 6, 0, false⟩,
    ⟨[3, 7, 3, 8, 104, -2, 99, 0, -2], 6, 0, false⟩,
    ⟨[3, 7, 3, 8, 104, -2, 99, 4, -2], 6, 0, false⟩],
   [1, 2, 3, 4, 0],
   -1,
   ⟨⟨[-2, -2, 4, -2, -2, 1, 0, -2, 0, -2, -2, 3, -2, -2, 4, -2, -2, 2, -2, -2, 1, 0, -2, 0, -2,
      -2, 4, -2, -2, 2, -2, -2, 3, -2, -2, 1, 0, -2, 0, -2, -2, 4, -2, -2, 3, -2, -2, 2, -2, -2,
      1, 0, -2, 2, -2, -2, 0, -2, -2, 3, -2, -2, 4, -2, -2, 1, 0, -2, 2, -2, -2, 0, -2, -2, 4,
      -2, -2, 3, -2, -2, 1, 0, -2, 2, -2, -2, 3, -2, -2, 0, -2, -2, 4, -2, -2, -2, 3, -2, -2, 2],
     95, 95⟩,
    ⟨[], [], false, 0⟩⟩)

def midC5b : List VM × List Int × Int × Sys :=
  ([⟨[3, 7, 3, 8, 104, -2, 99, 2, 0], 6, 0, false⟩,
    ⟨[3, 7, 3, 8, 104, -2, 99, 3, -2], 6, 0, false⟩,
    ⟨[3, 7, 3, 8, 104, -2, 99, 4, -2], 6, 0, false⟩,
    ⟨[3, 7, 3, 8, 104, -2, 99, 1, -2], 6, 0, false⟩,
    ⟨[3, 7, 3, 8, 104, -2, 99, 0, -2], 6, 0, false⟩],
   [2, 4, 0, 1, 3],
   -1,
   ⟨⟨[2, 0, -2, 3, -2, -2, 0, -2, -2, 1, -2, -2, 4, -2, -2, 2, 0, -2, 3, -2, -2, 0, -2, -2, 4,
      -2, -2, 1, -2, -2, 2, 0, -2, 3, -2, -2, 1, -2, -2, 0, -2, -2, 4, -2, -2, 2, 0, -2, 3, -2,
      -2, 1, -2, -2, 4, -2, -2, 0, -2, -2, 2, 0, -2, 3, -2, -2, 4, -2, -2, 0, -2, -2, 1, -2, -2,
      2, 0, -2, 3, -2, -2, 4, -2, -2, 1, -2, -2, 0, -2, -2, -2, 4, -2, -2, 3, -2, -2, 0, -2, -2],
     90, 90⟩,
    ⟨[], [], false, 0⟩⟩)

def midC5c : List VM × List Int × Int × Sys :=
  ([⟨[3, 7, 3, 8, 104, -2, 99, 4, 0], 6, 0, false⟩,
    ⟨[3, 7, 3, 8, 104, -2, 99, 0, -2], 6, 0, false⟩,
    ⟨[3, 7, 3, 8, 104, -2, 99, 2, -2], 6, 0, false⟩,
    ⟨[3, 7, 3, 8, 104, -2, 99, 1, -2], 6, 0, false⟩,
    ⟨[3, 7, 3, 8, 104, -2, 99, 3, -2], 6, 0, false⟩],
   [4, 0, 2, 3, 1],
   -1,
   ⟨⟨[-2, 1, -2, -2, 2, -2, -2, 0, -2, -2, 3, 0, -2, 4, -2, -2, 2, -2, -2, 0, -2, -2, 1, -2, -2,
      3, 0, -2, 4, -2, -2, 2, -2, -2, 1, -2, -2, 0, -2, -2, 4, 0, -2, 0, -2, -2, 1, -2, -2, 2,
      -2, -2, 3, -2, -2, 4, 0, -2, 0, -2, -2, 1, -2, -2, 3, -2, -2, 2, -2, -2, 4, 0, -2, 0, -2,
      -2, 2, -2, -2, 1, -2, -2, 3, -2, -2, -2, 1, -2, -2, 0, -2, -2, 2, -2, -2, 3, 0, -2, 4, -2],
     85, 85⟩,
    ⟨[], [], false, 0⟩⟩)

end Intcode

/-
Theorems.
-/

open Intcode

/- List helper: a getD with default 0 at or beyond the original length of a
zero-extended list yields 0. -/
theorem getD_replicate_zero (k j : Nat) : (List.replicate k (0 : Int)).getD j 0 = 0 := by
  induction k generalizing j with
  | zero => rfl
  | succ n ih => cases j with
    | zero => rfl
    | succ m => exact ih m

theorem getD_beyond_zero (l : List Int) (k i : Nat) (h : l.length ≤ i) :
    (l ++ List.replicate k (0 : Int)).getD i 0 = 0 := by
  rcases Nat.lt_or_ge i (l.length + k) with hlt | hge
  · rw [List.getD_append_right _ _ _ _ h]
    exact getD_replicate_zero k (i - l.length)
  · exact List.getD_eq_default _ _ (by simpa using hge)

theorem setsize_length (m : List Int) (n : Nat) :
    (setsize m n).length = max m.length n := by
  unfold setsize
  split <;> simp <;> omega

/-- C10: invoking run on a machine instance whose halted flag is already true
is a no-op — the memory, size, instruction pointer, relative base and halted
flag are unchanged (the whole VM and the shared state are returned as they
were), and in the amplifier variant (part_000) the call returns its input
value unchanged, so a halted stage passes the pipeline value through. -/
theorem c10_run_on_halted :
    (∀ (fuel : Nat) (v : VM) (s : Sys), v.halted = true → run fuel v s = some (.ok (v, s))) ∧
    (∀ (fuel : Nat) (v : P0.VM0) (a : Int) (c : Console), v.halted = true →
      P0.run fuel v a c = some (v, a, c)) := by
  constructor
  · intro fuel v s h
    cases fuel <;> simp [run, h]
  · intro fuel v a c h
    cases fuel <;> simp [P0.run, P0.run0, h]

theorem c10_witness :
    run 0 ⟨[99], 0, 0, true⟩ s0 = some (.ok (⟨[99], 0, 0, true⟩, s0)) ∧
    P0.run 2 ⟨[99], 5, 7, 3, true, true⟩ 42 ⟨[], [], false, 0⟩
      = some (⟨[99], 5, 7, 3, true, true⟩, 42, ⟨[], [], false, 0⟩) :=
  ⟨c10_run_on_halted.1 0 _ _ rfl, c10_run_on_halted.2 2 _ _ _ rfl⟩

/-- C6: after resetting an instance from program image P — copyvm from a
pristine reference in intcode.c, reset in part_000 — the memory equals P on
the first len(P) cells and is zero on every cell beyond (intcode.c keeps a
larger left-over buffer, zero-filled; part_000 sets the size to exactly
len(P)), and ip, base and halted are 0, 0 and false. -/
theorem c6_reset_restores_image :
    (∀ (dst : VM) (P : List Int),
      (copyvm dst ⟨P, 0, 0, false⟩).mem.length = max dst.mem.length P.length ∧
      (∀ i, i < P.length → (copyvm dst ⟨P, 0, 0, false⟩).mem.getD i 0 = P.getD i 0) ∧
      (∀ i, P.length ≤ i → (copyvm dst ⟨P, 0, 0, false⟩).mem.getD i 0 = 0) ∧
      (copyvm dst ⟨P, 0, 0, false⟩).ip = 0 ∧
      (copyvm dst ⟨P, 0, 0, false⟩).base = 0 ∧
      (copyvm dst ⟨P, 0, 0, false⟩).halted = false) ∧
    (∀ (pvm : P0.VM0) (P : List Int) (ph : Int),
      (P0.reset pvm P ph).mem = P ∧ (P0.reset pvm P ph).ip = 0 ∧
      (P0.reset pvm P ph).base = 0 ∧ (P0.reset pvm P ph).halted = false) := by
  constructor
  · intro dst P
    refine ⟨?_, ?_, ?_, rfl, rfl, rfl⟩
    · show (P ++ List.replicate ((setsize dst.mem P.length).length - P.length) 0).length = _
      rw [setsize_length]
      simp only [List.length_append, List.length_replicate]
      omega
    · intro i hi
      exact List.getD_append _ _ _ _ hi
    · intro i hi
      exact getD_beyond_zero _ _ _ hi
  · intro pvm P ph
    exact ⟨rfl, rfl, rfl, rfl⟩

theorem c6_witness :
    (copyvm ⟨[7, 7, 7, 7], 9, 9, true⟩ ⟨[1, 2], 0, 0, false⟩).mem.getD 0 0 = 1 ∧
    (copyvm ⟨[7, 7, 7, 7], 9, 9, true⟩ ⟨[1, 2], 0, 0, false⟩).mem.getD 3 0 = 0 ∧
    (P0.reset ⟨[7, 7, 7], 9, 9, 9, true, true⟩ [1, 2] 4).mem = [1, 2] :=
  ⟨(c6_reset_restores_image.1 ⟨[7, 7, 7, 7], 9, 9, true⟩ [1, 2]).2.1 0 (by decide),
   (c6_reset_restores_image.1 ⟨[7, 7, 7, 7], 9, 9, true⟩ [1, 2]).2.2.1 3 (by decide),
   (c6_reset_restores_image.2 ⟨[7, 7, 7], 9, 9, 9, true, true⟩ [1, 2] 4).1⟩

/- Characterizations of the two parameter-resolution blocks of run(), by
definitional unfolding. -/
theorem readOne_eq (ins : Int) (v : VM) :
    readOne ins v =
      (if bitIMM (ins.tmod 10) = 0 then
        (if resolvedAddr v ins < 0 then .err .ERR_PAR_READ
         else
           let v2 := growIfNeeded ⟨v.mem, v.ip + 1, v.base, v.halted⟩ (resolvedAddr v ins).toNat
           .ok (v2, v2.mem.getD (resolvedAddr v ins).toNat 0))
      else .ok (⟨v.mem, v.ip + 1, v.base, v.halted⟩, v.mem.getD v.ip.toNat 0)) := rfl

theorem writeOne_eq (ins : Int) (v : VM) :
    writeOne ins v =
      (if resolvedAddr v ins < 0 then .err .ERR_PAR_WRITE
       else .ok (growIfNeeded ⟨v.mem, v.ip + 1, v.base, v.halted⟩ (resolvedAddr v ins).toNat,
                 (resolvedAddr v ins).toNat)) := rfl

/-- C1: during parameter resolution in every execution step, a resolved
positional, relative or write-target address that is negative is a fatal
fault (ERR_PAR_READ / ERR_PAR_WRITE); an address at or beyond the current
memory size triggers zero-filled on-demand growth instead of a fault, and
the read of such a freshly grown address returns 0. -/
theorem c1_negative_faults_growth_reads_zero :
    ∀ (v : VM) (ins : Int),
      (bitIMM (ins.tmod 10) = 0 →
        (resolvedAddr v ins < 0 → readOne ins v = .err .ERR_PAR_READ) ∧
        ((v.mem.length : Int) ≤ resolvedAddr v ins →
          readOne ins v =
            .ok (⟨v.mem ++ List.replicate ((resolvedAddr v ins).toNat + 1 - v.mem.length) 0,
                  v.ip + 1, v.base, v.halted⟩, 0))) ∧
      ((resolvedAddr v ins < 0 → writeOne ins v = .err .ERR_PAR_WRITE) ∧
       ((v.mem.length : Int) ≤ resolvedAddr v ins →
         writeOne ins v =
           .ok (⟨v.mem ++ List.replicate ((resolvedAddr v ins).toNat + 1 - v.mem.length) 0,
                 v.ip + 1, v.base, v.halted⟩,
                (resolvedAddr v ins).toNat))) := by
  intro v ins
  have hgrow : (v.mem.length : Int) ≤ resolvedAddr v ins →
      growIfNeeded ⟨v.mem, v.ip + 1, v.base, v.halted⟩ (resolvedAddr v ins).toNat =
        ⟨v.mem ++ List.replicate ((resolvedAddr v ins).toNat + 1 - v.mem.length) 0,
         v.ip + 1, v.base, v.halted⟩ := by
    intro hle
    have hlen : v.mem.length ≤ (resolvedAddr v ins).toNat := by omega
    unfold growIfNeeded setsize
    simp only [if_pos hlen]
    split
    · rfl
    · omega
  refine ⟨fun himm => ⟨fun hneg => ?_, fun hle => ?_⟩, fun hneg => ?_, fun hle => ?_⟩
  · rw [readOne_eq, if_pos himm, if_pos hneg]
  · have hnneg : ¬ resolvedAddr v ins < 0 := by omega
    rw [readOne_eq, if_pos himm, if_neg hnneg]
    have hread : (v.mem ++ List.replicate ((resolvedAddr v ins).toNat + 1 - v.mem.length) 0).getD
        (resolvedAddr v ins).toNat 0 = 0 :=
      getD_beyond_zero _ _ _ (by omega)
    simp only [hgrow hle, hread]
  · rw [writeOne_eq, if_pos hneg]
  · have hnneg : ¬ resolvedAddr v ins < 0 := by omega
    rw [writeOne_eq, if_neg hnneg, hgrow hle]

theorem c1_witness :
    readOne 0 ⟨[5], 0, 0, false⟩ = .ok (⟨[5, 0, 0, 0, 0, 0], 1, 0, false⟩, 0) ∧
    writeOne 0 ⟨[5], 0, 0, false⟩ = .ok (⟨[5, 0, 0, 0, 0, 0], 1, 0, false⟩, 5) ∧
    readOne 0 ⟨[-3], 0, 0, false⟩ = .err .ERR_PAR_READ ∧
    writeOne 0 ⟨[-3], 0, 0, false⟩ = .err .ERR_PAR_WRITE :=
  ⟨((c1_negative_faults_growth_reads_zero ⟨[5], 0, 0, false⟩ 0).1 (by decide)).2 (by decide),
   ((c1_negative_faults_growth_reads_zero ⟨[5], 0, 0, false⟩ 0).2).2 (by decide),
   ((c1_negative_faults_growth_reads_zero ⟨[-3], 0, 0, false⟩ 0).1 (by decide)).1 (by decide),
   ((c1_negative_faults_growth_reads_zero ⟨[-3], 0, 0, false⟩ 0).2).1 (by decide)⟩

/- Sanity check: 1,0,0,0,99 adds 1+1 into cell 0 and halts (spec section 8). -/
example :
    run 3 ⟨[1, 0, 0, 0, 99], 0, 0, false⟩ s0
      = some (.ok (⟨[2, 0, 0, 0, 99], 5, 0, true⟩, s0)) := by
  decide

/- List.set / getD interaction helpers. -/
theorem getD_set_self (l : List Int) (i : Nat) (v d : Int) (h : i < l.length) :
    (l.set i v).getD i d = v := by
  simp [List.getD, List.getElem?_set, h]

theorem getD_set_ne (l : List Int) (i j : Nat) (v d : Int) (h : i ≠ j) :
    (l.set i v).getD j d = l.getD j d := by
  simp [List.getD, List.getElem?_set, h]

/- Pushing into a queue that is not at capacity appends the value in the
toList abstraction and leaves the process boundary untouched. -/
theorem fifopush_not_full (f : Fifo) (c : Console) (v : Int)
    (hwf : f.wf) (hnf : ¬ f.isFull) :
    (fifopush v f c).1.toList = f.toList ++ [v] ∧ (fifopush v f c).2 = c := by
  obtain ⟨hlen, hh, ht⟩ := hwf
  have hh100 : f.head < 100 := hh
  have ht100 : f.tail < 100 := ht
  have hnf' : ¬ (f.head + 1) % 100 = f.tail := hnf
  have hcdef : f.count = (f.head + 100 - f.tail) % 100 := rfl
  have hcount : (fifopush v f c).1.count = f.count + 1 := by
    show ((f.head + 1) % 100 + 100 - f.tail) % 100 = (f.head + 100 - f.tail) % 100 + 1
    omega
  constructor
  · show (List.range ((fifopush v f c).1.count)).map
        (fun i => (f.buf.set f.head v).getD ((f.tail + i) % 100) 0) = f.toList ++ [v]
    rw [hcount, List.range_succ, List.map_append]
    congr 1
    · refine List.map_congr_left ?_
      intro i hi
      have hi' : i < f.count := List.mem_range.mp hi
      have hne : f.head ≠ (f.tail + i) % 100 := by omega
      exact getD_set_ne _ _ _ _ _ hne
    · have hth : (f.tail + f.count) % 100 = f.head := by omega
      show [(f.buf.set f.head v).getD ((f.tail + f.count) % 100) 0] = [v]
      rw [hth, getD_set_self _ _ _ _ (by omega)]
  · show (if (f.head + 1) % 100 = f.tail then output v c else c) = c
    rw [if_neg hnf']

/- Popping a non-empty queue yields the oldest value and the tail of the
abstraction, without touching the process boundary. -/
theorem fifopop_nonempty (f : Fifo) (c : Console)
    (hwf : f.wf) (hne : f.head ≠ f.tail) :
    (fifopop f c).1 = f.toList.headD 0 ∧
    (fifopop f c).2.1.toList = f.toList.tail ∧ (fifopop f c).2.2 = c := by
  obtain ⟨hlen, hh, ht⟩ := hwf
  have hh100 : f.head < 100 := hh
  have ht100 : f.tail < 100 := ht
  have hcdef : f.count = (f.head + 100 - f.tail) % 100 := rfl
  have hc0 : f.count ≠ 0 := by omega
  obtain ⟨k, hk⟩ := Nat.exists_eq_succ_of_ne_zero hc0
  have htl : f.toList = (List.range (k + 1)).map
      (fun i => f.buf.getD ((f.tail + i) % FIFOSIZE) 0) := by
    show (List.range f.count).map _ = _
    rw [hk]
  have hpop : fifopop f c =
      (f.buf.getD f.tail 0, ⟨f.buf, f.head, (f.tail + 1) % FIFOSIZE⟩, c) := by
    unfold fifopop
    rw [if_neg hne]
  rw [hpop, htl, List.range_succ_eq_map, List.map_cons, List.map_map]
  have htail0 : f.tail % FIFOSIZE = f.tail := by
    show f.tail % 100 = f.tail
    omega
  refine ⟨by simp [htail0], ?_, rfl⟩
  have hcount' : (Fifo.mk f.buf f.head ((f.tail + 1) % FIFOSIZE)).count = k := by
    show (f.head + 100 - (f.tail + 1) % 100) % 100 = k
    omega
  show (List.range ((Fifo.mk f.buf f.head ((f.tail + 1) % FIFOSIZE)).count)).map
      (fun i => f.buf.getD (((f.tail + 1) % FIFOSIZE + i) % FIFOSIZE) 0) = _
  rw [hcount']
  simp only [List.tail_cons]
  refine List.map_congr_left ?_
  intro i hi
  have hmod : ((f.tail + 1) % FIFOSIZE + i) % FIFOSIZE = (f.tail + (i + 1)) % FIFOSIZE := by
    show ((f.tail + 1) % 100 + i) % 100 = (f.tail + (i + 1)) % 100
    omega
  simp [Function.comp, hmod, Nat.succ_eq_add_one]

/- Popping an empty queue falls back to input(): one stdin value is consumed
(0 when stdin is exhausted), a prompt is printed exactly when the stream is
a terminal, and the queue is untouched. -/
theorem fifopop_empty (f : Fifo) (c : Console) (he : f.head = f.tail) :
    (fifopop f c).2.1 = f ∧
    (fifopop f c).1 = c.stdin.headD 0 ∧
    (fifopop f c).2.2.stdin = c.stdin.tail ∧
    (fifopop f c).2.2.stdout = c.stdout ∧
    (fifopop f c).2.2.prompts = c.prompts + (if c.tty then 1 else 0) := by
  obtain ⟨si, so, tt, pr⟩ := c
  cases tt <;> cases si <;> simp [fifopop, input, he]

/-- C7 (amended): push(v) appends v at the tail when the queue is not at
capacity, leaving the process boundary untouched; when the queue is at
capacity, v is printed to the output boundary immediately and the producer
is not blocked, but v is still stored and the head advances onto the tail,
so the queue reads as empty afterwards and the previously queued values are
no longer reachable by pop. -/
theorem c7_push_appends_or_drains :
    ∀ (f : Fifo) (c : Console) (v : Int), f.wf →
      (¬ f.isFull →
        (fifopush v f c).1.toList = f.toList ++ [v] ∧ (fifopush v f c).2 = c) ∧
      (f.isFull →
        (fifopush v f c).2 = output v c ∧
        (fifopush v f c).1.head = (fifopush v f c).1.tail ∧
        (fifopush v f c).1.toList = []) := by
  intro f c v hwf
  refine ⟨fun hnf => fifopush_not_full f c v hwf hnf, fun hfull => ⟨?_, ?_, ?_⟩⟩
  · have hfull' : (f.head + 1) % 100 = f.tail := hfull
    show (if (f.head + 1) % 100 = f.tail then output v c else c) = output v c
    rw [if_pos hfull']
  · show (f.head + 1) % 100 = f.tail
    exact hfull
  · have hfull' : (f.head + 1) % 100 = f.tail := hfull
    have hc : (fifopush v f c).1.count = 0 := by
      show ((f.head + 1) % 100 + 100 - f.tail) % 100 = 0
      omega
    show (List.range ((fifopush v f c).1.count)).map _ = []
    rw [hc]
    rfl

theorem c7_witness :
    (fifopush 5 ⟨List.replicate 100 0, 2, 1⟩ ⟨[], [], false, 0⟩).1.toList
      = Fifo.toList ⟨List.replicate 100 0, 2, 1⟩ ++ [5] ∧
    (fifopush 5 ⟨List.replicate 100 0, 2, 1⟩ ⟨[], [], false, 0⟩).2 = ⟨[], [], false, 0⟩ :=
  (c7_push_appends_or_drains ⟨List.replicate 100 0, 2, 1⟩ ⟨[], [], false, 0⟩ 5
    (by decide)).1 (by decide)

/- C7 counterexample: a queue at capacity holding 99 values (all 7).  Pushing
42 prints it, but afterwards the queue reads as empty: the 99 queued values
are never popped again — the next pop falls through to stdin (here 9). -/
theorem c7_counterexample :
    Fifo.toList ⟨List.replicate 100 7, 99, 0⟩ = List.replicate 99 7 ∧
    Fifo.isFull ⟨List.replicate 100 7, 99, 0⟩ ∧
    (fifopush 42 ⟨List.replicate 100 7, 99, 0⟩ ⟨[9], [], false, 0⟩).2.stdout = [42] ∧
    (fifopush 42 ⟨List.replicate 100 7, 99, 0⟩ ⟨[9], [], false, 0⟩).1.toList = [] ∧
    (fifopop (fifopush 42 ⟨List.replicate 100 7, 99, 0⟩ ⟨[9], [], false, 0⟩).1
      (fifopush 42 ⟨List.replicate 100 7, 99, 0⟩ ⟨[9], [], false, 0⟩).2).1 = 9 := by
  decide

/-- C8: pop() on a non-empty queue removes and returns the head element (the
oldest queued value), so successive pops return values in push order; pop()
on an empty queue does not fail but reads one value from the process-boundary
input source, with a visible prompt exactly when the input stream is an
interactive terminal. -/
theorem c8_pop_head_or_input :
    ∀ (f : Fifo) (c : Console), f.wf →
      (f.head ≠ f.tail →
        (fifopop f c).1 = f.toList.headD 0 ∧
        (fifopop f c).2.1.toList = f.toList.tail ∧
        (fifopop f c).2.2 = c) ∧
      (f.head = f.tail →
        (fifopop f c).2.1 = f ∧
        (fifopop f c).1 = c.stdin.headD 0 ∧
        (fifopop f c).2.2.stdin = c.stdin.tail ∧
        (fifopop f c).2.2.stdout = c.stdout ∧
        (fifopop f c).2.2.prompts = c.prompts + (if c.tty then 1 else 0)) := by
  intro f c hwf
  exact ⟨fun hne => fifopop_nonempty f c hwf hne, fun he => fifopop_empty f c he⟩

theorem c8_witness :
    (fifopop ⟨List.replicate 100 7, 3, 2⟩ ⟨[], [], false, 0⟩).1
      = (Fifo.toList ⟨List.replicate 100 7, 3, 2⟩).headD 0 ∧
    (fifopop ⟨List.replicate 100 0, 4, 4⟩ ⟨[8], [], true, 0⟩).1 = 8 ∧
    (fifopop ⟨List.replicate 100 0, 4, 4⟩ ⟨[8], [], true, 0⟩).2.2.prompts = 0 + 1 :=
  ⟨((c8_pop_head_or_input ⟨List.replicate 100 7, 3, 2⟩ ⟨[], [], false, 0⟩
      (by decide)).1 (by decide)).1,
   ((c8_pop_head_or_input ⟨List.replicate 100 0, 4, 4⟩ ⟨[8], [], true, 0⟩
      (by decide)).2 rfl).2.1,
   by
     have h := ((c8_pop_head_or_input ⟨List.replicate 100 0, 4, 4⟩ ⟨[8], [], true, 0⟩
       (by decide)).2 rfl).2.2.2.2
     simpa using h⟩

/- Characterization of the fetch / decode / bounds-check prefix, by
definitional unfolding. -/
theorem fetchDecode_eq (v : VM) :
    fetchDecode v =
      (if v.ip < 0 then .err .ERR_IP_LO
       else if (v.mem.length : Int) ≤ v.ip then .err .ERR_IP_HI
       else if 0 < (getdef ((v.mem.getD v.ip.toNat 0).tmod 100)).pc ∧
              (v.mem.length : Int) ≤ v.ip + 1 + ((getdef ((v.mem.getD v.ip.toNat 0).tmod 100)).pc : Int)
         then .err .ERR_IP_INSTR
         else .ok ((v.mem.getD v.ip.toNat 0).tmod 100, (v.mem.getD v.ip.toNat 0).tdiv 100,
                   getdef ((v.mem.getD v.ip.toNat 0).tmod 100),
                   ⟨v.mem, v.ip + 1, v.base, v.halted⟩)) := rfl

/-- C2: for every program state and every combination of addressing modes of
the two read operands (and a positional or relative write target), executing
the ADD / MUL opcode with resolved operand values a and b writes exactly
a + b / a * b to the resolved write-target address, and nothing else changes:
step returns a continuation whose only difference is the written cell. -/
theorem c2_add_mul_exact :
    ∀ (v : VM) (s : Sys) (opc m1 m2 mw : Int) (a b : Int) (v1 : VM) (ins2 : Int) (v2 : VM) (t : Nat),
      opc = 1 ∨ opc = 2 →
      0 ≤ m1 → m1 < 3 → 0 ≤ m2 → m2 < 3 → (mw = 0 ∨ mw = 2) →
      0 ≤ v.ip →
      v.ip + 4 < (v.mem.length : Int) →
      v.mem.getD v.ip.toNat 0 = opc + 100 * m1 + 1000 * m2 + 10000 * mw →
      readPars 2 ((v.mem.getD v.ip.toNat 0).tdiv 100) ⟨v.mem, v.ip + 1, v.base, v.halted⟩
        = .ok (v1, ins2, [a, b]) →
      writeOne ins2 v1 = .ok (v2, t) →
      step v s = .ok (.cont ⟨v2.mem.set t (if opc = 1 then a + b else a * b),
                             v2.ip, v2.base, v2.halted⟩ s) := by
  intro v s opc m1 m2 mw a b v1 ins2 v2 t hopc hm10 hm13 hm20 hm23 hmw hip0 hip4 hcell hread hwrite
  have hcnn : 0 ≤ v.mem.getD v.ip.toNat 0 := by
    rw [hcell]
    rcases hopc with rfl | rfl <;> rcases hmw with rfl | rfl <;> omega
  have hop : (v.mem.getD v.ip.toNat 0).tmod 100 = opc := by
    rw [Int.tmod_eq_emod hcnn (by norm_num), hcell]
    rcases hopc with rfl | rfl <;> rcases hmw with rfl | rfl <;> omega
  rcases hopc with rfl | rfl
  · have hchk : ¬ (0 < (getdef 1).pc ∧
        (v.mem.length : Int) ≤ v.ip + 1 + ((getdef 1).pc : Int)) := by
      have h3 : ((getdef 1).pc : Int) = 3 := by decide
      rintro ⟨-, hb⟩
      rw [h3] at hb
      omega
    have hfd : fetchDecode v = .ok (1, (v.mem.getD v.ip.toNat 0).tdiv 100,
        getdef 1, ⟨v.mem, v.ip + 1, v.base, v.halted⟩) := by
      rw [fetchDecode_eq, hop]
      rw [if_neg (by omega : ¬ v.ip < 0), if_neg (by omega : ¬ (v.mem.length : Int) ≤ v.ip),
          if_neg hchk]
    unfold step
    rw [hfd]
    show (match readPars (getdef 1).ic ((v.mem.getD v.ip.toNat 0).tdiv 100)
            ⟨v.mem, v.ip + 1, v.base, v.halted⟩ with
      | .err e => Res.err e
      | .ok (v2, ins2, ps) =>
        if (getdef 1).oc ≠ 0 then
          match writeOne ins2 v2 with
          | .err e => Res.err e
          | .ok (v3, t) => Res.ok (exec 1 (ps ++ [(t : Int)]) v3 s)
        else Res.ok (exec 1 ps v2 s)) = _
    have hic : (getdef 1).ic = 2 := by decide
    rw [hic, hread]
    show (if (getdef 1).oc ≠ 0 then
          match writeOne ins2 v1 with
          | .err e => Res.err e
          | .ok (v3, t) => Res.ok (exec 1 ([a, b] ++ [(t : Int)]) v3 s)
        else Res.ok (exec 1 [a, b] v1 s)) = _
    rw [if_pos (by decide : (getdef 1).oc ≠ 0), hwrite]
    show Res.ok (exec 1 [a, b, (t : Int)] v2 s) = _
    rw [if_pos (rfl : (1 : Int) = 1)]
    rfl
  · have hchk : ¬ (0 < (getdef 2).pc ∧
        (v.mem.length : Int) ≤ v.ip + 1 + ((getdef 2).pc : Int)) := by
      have h3 : ((getdef 2).pc : Int) = 3 := by decide
      rintro ⟨-, hb⟩
      rw [h3] at hb
      omega
    have hfd : fetchDecode v = .ok (2, (v.mem.getD v.ip.toNat 0).tdiv 100,
        getdef 2, ⟨v.mem, v.ip + 1, v.base, v.halted⟩) := by
      rw [fetchDecode_eq, hop]
      rw [if_neg (by omega : ¬ v.ip < 0), if_neg (by omega : ¬ (v.mem.length : Int) ≤ v.ip),
          if_neg hchk]
    unfold step
    rw [hfd]
    show (match readPars (getdef 2).ic ((v.mem.getD v.ip.toNat 0).tdiv 100)
            ⟨v.mem, v.ip + 1, v.base, v.halted⟩ with
      | .err e => Res.err e
      | .ok (v2, ins2, ps) =>
        if (getdef 2).oc ≠ 0 then
          match writeOne ins2 v2 with
          | .err e => Res.err e
          | .ok (v3, t) => Res.ok (exec 2 (ps ++ [(t : Int)]) v3 s)
        else Res.ok (exec 2 ps v2 s)) = _
    have hic : (getdef 2).ic = 2 := by decide
    rw [hic, hread]
    show (if (getdef 2).oc ≠ 0 then
          match writeOne ins2 v1 with
          | .err e => Res.err e
          | .ok (v3, t) => Res.ok (exec 2 ([a, b] ++ [(t : Int)]) v3 s)
        else Res.ok (exec 2 [a, b] v1 s)) = _
    rw [if_pos (by decide : (getdef 2).oc ≠ 0), hwrite]
    show Res.ok (exec 2 [a, b, (t : Int)] v2 s) = _
    rw [if_neg (by norm_num : ¬ (2 : Int) = 1)]
    rfl

theorem c2_witness :
    step ⟨[1101, 2, 3, 0, 99], 0, 0, false⟩ s0
      = .ok (.cont ⟨[5, 2, 3, 0, 99], 4, 0, false⟩ s0) ∧
    step ⟨[1102, 2, 3, 0, 99], 0, 0, false⟩ s0
      = .ok (.cont ⟨[6, 2, 3, 0, 99], 4, 0, false⟩ s0) :=
  ⟨c2_add_mul_exact ⟨[1101, 2, 3, 0, 99], 0, 0, false⟩ s0 1 1 1 0 2 3
      ⟨[1101, 2, 3, 0, 99], 3, 0, false⟩ 0 ⟨[1101, 2, 3, 0, 99], 4, 0, false⟩ 0
      (Or.inl rfl) (by decide) (by decide) (by decide) (by decide) (Or.inl rfl)
      (by decide) (by decide) (by decide) (by decide) (by decide),
   c2_add_mul_exact ⟨[1102, 2, 3, 0, 99], 0, 0, false⟩ s0 2 1 1 0 2 3
      ⟨[1102, 2, 3, 0, 99], 3, 0, false⟩ 0 ⟨[1102, 2, 3, 0, 99], 4, 0, false⟩ 0
      (Or.inr rfl) (by decide) (by decide) (by decide) (by decide) (Or.inl rfl)
      (by decide) (by decide) (by decide) (by decide) (by decide)⟩

/-- C3 (amended): a fetch-decode step faults if and only if the instruction
pointer is outside the valid memory range before the fetch, or the decoded
opcode declares operand slots (pc > 0) and ip + 1 + pc is not strictly below
the memory size.  This is one cell stricter than the original claim: an
instruction whose opcode cell and operand slots all lie within memory still
faults (ERR_IP_INSTR) when its last operand slot is the final memory cell. -/
theorem c3_fetch_fault_characterization :
    ∀ v : VM,
      (∃ r, fetchDecode v = .ok r) ↔
        (0 ≤ v.ip ∧ v.ip < (v.mem.length : Int) ∧
         (0 < (getdef ((v.mem.getD v.ip.toNat 0).tmod 100)).pc →
           v.ip + 1 + ((getdef ((v.mem.getD v.ip.toNat 0).tmod 100)).pc : Int)
             < (v.mem.length : Int))) := by
  intro v
  rw [fetchDecode_eq]
  split_ifs with h1 h2 h3
  · constructor
    · rintro ⟨r, hr⟩
      exact absurd hr (by simp)
    · intro h
      exfalso
      omega
  · constructor
    · rintro ⟨r, hr⟩
      exact absurd hr (by simp)
    · intro h
      exfalso
      omega
  · constructor
    · rintro ⟨r, hr⟩
      exact absurd hr (by simp)
    · intro h
      exfalso
      omega
  · constructor
    · intro _
      omega
    · intro _
      exact ⟨_, rfl⟩

/- C3 counterexample: the program 104,5 (OUT of immediate 5).  The
instruction pointer 0 is in range and the opcode cell plus its single
declared operand slot lie entirely within the 2-cell memory (0 + 1 + 1 ≤ 2),
yet the fetch faults with ERR_IP_INSTR, contradicting the claim that such an
instruction does not fault at fetch time. -/
theorem c3_counterexample :
    fetchDecode ⟨[104, 5], 0, 0, false⟩ = .err .ERR_IP_INSTR ∧
    (0 : Int) ≤ 0 ∧ (0 : Int) < (([104, 5] : List Int).length : Int) ∧
    0 + 1 + ((getdef (((104 : Int)).tmod 100)).pc : Int) ≤ (([104, 5] : List Int).length : Int) := by
  decide

/- Memory-size monotonicity of every intcode.c operation. -/
theorem growIfNeeded_mono (v : VM) (a : Nat) :
    v.mem.length ≤ (growIfNeeded v a).mem.length := by
  unfold growIfNeeded
  split
  · show v.mem.length ≤ (setsize v.mem (a + 1)).length
    rw [setsize_length]
    omega
  · exact le_refl _

theorem readOne_mono (ins : Int) (v v' : VM) (p : Int)
    (hok : readOne ins v = .ok (v', p)) : v.mem.length ≤ v'.mem.length := by
  rw [readOne_eq] at hok
  by_cases h1 : bitIMM (ins.tmod 10) = 0
  · rw [if_pos h1] at hok
    by_cases h2 : resolvedAddr v ins < 0
    · rw [if_pos h2] at hok
      exact absurd hok (by simp)
    · rw [if_neg h2] at hok
      have hok2 : Res.ok (growIfNeeded ⟨v.mem, v.ip + 1, v.base, v.halted⟩ (resolvedAddr v ins).toNat,
          (growIfNeeded ⟨v.mem, v.ip + 1, v.base, v.halted⟩ (resolvedAddr v ins).toNat).mem.getD
            (resolvedAddr v ins).toNat 0) = Res.ok (v', p) := hok
      simp only [Res.ok.injEq, Prod.mk.injEq] at hok2
      obtain ⟨hv, -⟩ := hok2
      rw [← hv]
      exact growIfNeeded_mono ⟨v.mem, v.ip + 1, v.base, v.halted⟩ (resolvedAddr v ins).toNat
  · rw [if_neg h1] at hok
    simp only [Res.ok.injEq, Prod.mk.injEq] at hok
    obtain ⟨hv, -⟩ := hok
    rw [← hv]

theorem readPars_mono : ∀ (n : Nat) (ins : Int) (v v' : VM) (ins' : Int) (ps : List Int),
    readPars n ins v = .ok (v', ins', ps) → v.mem.length ≤ v'.mem.length
  | 0, ins, v, v', ins', ps => by
    intro hok
    simp only [readPars, Res.ok.injEq, Prod.mk.injEq] at hok
    obtain ⟨rfl, -, -⟩ := hok
    exact le_refl _
  | n + 1, ins, v, v', ins', ps => by
    intro hok
    have he : readPars (n + 1) ins v =
        (match readOne ins v with
         | .err e => .err e
         | .ok (v1, p) =>
           match readPars n (ins.tdiv 10) v1 with
           | .err e => .err e
           | .ok (v2, ins2, ps2) => .ok (v2, ins2, p :: ps2)) := rfl
    rw [he] at hok
    cases hro : readOne ins v with
    | err e =>
      rw [hro] at hok
      exact absurd hok (by simp)
    | ok pr =>
      obtain ⟨v1, p⟩ := pr
      rw [hro] at hok
      have hok2 : (match readPars n (ins.tdiv 10) v1 with
          | .err e => Res.err e
          | .ok (v2, ins2, ps2) => Res.ok (v2, ins2, p :: ps2)) = Res.ok (v', ins', ps) := hok
      cases hrp : readPars n (ins.tdiv 10) v1 with
      | err e =>
        rw [hrp] at hok2
        exact absurd hok2 (by simp)
      | ok pr2 =>
        obtain ⟨v2, ins2, ps2⟩ := pr2
        rw [hrp] at hok2
        have hok3 : Res.ok (v2, ins2, p :: ps2) = Res.ok (v', ins', ps) := hok2
        simp only [Res.ok.injEq, Prod.mk.injEq] at hok3
        obtain ⟨rfl, -, -⟩ := hok3
        exact le_trans (readOne_mono ins v v1 p hro)
          (readPars_mono n (ins.tdiv 10) v1 v2 ins2 ps2 hrp)

theorem writeOne_mono (ins : Int) (v v' : VM) (t : Nat)
    (hok : writeOne ins v = .ok (v', t)) : v.mem.length ≤ v'.mem.length := by
  rw [writeOne_eq] at hok
  by_cases h1 : resolvedAddr v ins < 0
  · rw [if_pos h1] at hok
    exact absurd hok (by simp)
  · rw [if_neg h1] at hok
    simp only [Res.ok.injEq, Prod.mk.injEq] at hok
    obtain ⟨hv, -⟩ := hok
    rw [← hv]
    exact growIfNeeded_mono ⟨v.mem, v.ip + 1, v.base, v.halted⟩ (resolvedAddr v ins).toNat

set_option maxHeartbeats 1000000 in
theorem exec_mono (op : Int) (p : List Int) (v : VM) (s : Sys) :
    v.mem.length ≤ ((exec op p v s).vm).mem.length := by
  unfold exec
  split_ifs <;> simp [StepRes.vm, List.length_set, apply_ite VM.mem, apply_ite List.length]

theorem fetchDecode_mem (v : VM) (op ins : Int) (df : Lang) (v1 : VM)
    (hok : fetchDecode v = .ok (op, ins, df, v1)) : v1.mem = v.mem := by
  rw [fetchDecode_eq] at hok
  split_ifs at hok
  simp at hok
  obtain ⟨-, -, -, hv⟩ := hok
  rw [← hv]

theorem step_eq_ok_fd (v : VM) (s : Sys) (op ins : Int) (df : Lang) (v1 : VM)
    (h : fetchDecode v = .ok (op, ins, df, v1)) :
    step v s =
      (match readPars df.ic ins v1 with
       | .err e => .err e
       | .ok (v2, ins2, ps) =>
         if df.oc ≠ 0 then
           match writeOne ins2 v2 with
           | .err e => .err e
           | .ok (v3, t) => .ok (exec op (ps ++ [(t : Int)]) v3 s)
         else .ok (exec op ps v2 s)) := by
  unfold step
  rw [h]

theorem step_mono (v : VM) (s : Sys) (r : StepRes)
    (hok : step v s = .ok r) : v.mem.length ≤ (r.vm).mem.length := by
  cases hfd : fetchDecode v with
  | err e =>
    unfold step at hok
    rw [hfd] at hok
    exact absurd hok (by simp)
  | ok q =>
    obtain ⟨op, ins, df, v1⟩ := q
    rw [step_eq_ok_fd v s op ins df v1 hfd] at hok
    have hv1 : v1.mem = v.mem := fetchDecode_mem v op ins df v1 hfd
    cases hrp : readPars df.ic ins v1 with
    | err e =>
      rw [hrp] at hok
      exact absurd hok (by simp)
    | ok pr =>
      obtain ⟨v2, ins2, ps⟩ := pr
      rw [hrp] at hok
      have hok2 : (if df.oc ≠ 0 then
            match writeOne ins2 v2 with
            | .err e => Res.err e
            | .ok (v3, t) => Res.ok (exec op (ps ++ [(t : Int)]) v3 s)
          else Res.ok (exec op ps v2 s)) = Res.ok r := hok
      have h12 : v1.mem.length ≤ v2.mem.length := readPars_mono _ _ _ _ _ _ hrp
      by_cases hoc : df.oc ≠ 0
      · rw [if_pos hoc] at hok2
        cases hw : writeOne ins2 v2 with
        | err e =>
          rw [hw] at hok2
          exact absurd hok2 (by simp)
        | ok pw =>
          obtain ⟨v3, t⟩ := pw
          rw [hw] at hok2
          have h23 : v2.mem.length ≤ v3.mem.length := writeOne_mono _ _ _ _ hw
          have hok3 : Res.ok (exec op (ps ++ [(t : Int)]) v3 s) = Res.ok r := hok2
          simp only [Res.ok.injEq] at hok3
          rw [← hok3]
          calc v.mem.length = v1.mem.length := (congrArg List.length hv1).symm
            _ ≤ v2.mem.length := h12
            _ ≤ v3.mem.length := h23
            _ ≤ _ := exec_mono op (ps ++ [(t : Int)]) v3 s
      · rw [if_neg hoc] at hok2
        simp only [Res.ok.injEq] at hok2
        rw [← hok2]
        calc v.mem.length = v1.mem.length := (congrArg List.length hv1).symm
          _ ≤ v2.mem.length := h12
          _ ≤ _ := exec_mono op ps v2 s

theorem run_mono : ∀ (fuel : Nat) (v : VM) (s : Sys) (v' : VM) (s' : Sys),
    run fuel v s = some (.ok (v', s')) → v.mem.length ≤ v'.mem.length
  | 0, v, s, v', s' => by
    intro hok
    unfold run at hok
    split_ifs at hok
    simp only [Option.some.injEq, Res.ok.injEq, Prod.mk.injEq] at hok
    obtain ⟨rfl, -⟩ := hok
    exact le_refl _
  | fuel + 1, v, s, v', s' => by
    intro hok
    unfold run at hok
    split_ifs at hok with hh
    · simp only [Option.some.injEq, Res.ok.injEq, Prod.mk.injEq] at hok
      obtain ⟨rfl, -⟩ := hok
      exact le_refl _
    · cases hst : step v s with
      | err e =>
        rw [hst] at hok
        exact absurd hok (by simp)
      | ok r =>
        rw [hst] at hok
        cases r with
        | ret v1 s1 =>
          have hok2 : some (Res.ok (v1, s1)) = some (Res.ok (v', s')) := hok
          simp only [Option.some.injEq, Res.ok.injEq, Prod.mk.injEq] at hok2
          obtain ⟨rfl, -⟩ := hok2
          exact step_mono v s _ hst
        | cont v1 s1 =>
          have hok2 : run fuel v1 s1 = some (Res.ok (v', s')) := hok
          exact le_trans (step_mono v s _ hst) (run_mono fuel v1 s1 v' s' hok2)

/-- C9 (amended): in the main variant (intcode.c) no operation ever decreases
an instance's memory size — setsize and copyvm only grow, and every execution
step and every run keeps the size non-decreasing.  In the day-7 variant
(part_000), however, reset sets the size to exactly the image length, which
decreases it whenever the buffer was previously larger. -/
theorem c9_memory_monotone :
    (∀ (m : List Int) (n : Nat), m.length ≤ (setsize m n).length) ∧
    (∀ (dst src : VM), dst.mem.length ≤ (copyvm dst src).mem.length) ∧
    (∀ (v : VM) (s : Sys) (r : StepRes), step v s = .ok r →
      v.mem.length ≤ (r.vm).mem.length) ∧
    (∀ (fuel : Nat) (v : VM) (s : Sys) (v' : VM) (s' : Sys),
      run fuel v s = some (.ok (v', s')) → v.mem.length ≤ v'.mem.length) := by
  refine ⟨?_, ?_, step_mono, run_mono⟩
  · intro m n
    rw [setsize_length]
    omega
  · intro dst src
    show dst.mem.length ≤ (src.mem ++ List.replicate ((setsize dst.mem src.mem.length).length - src.mem.length) 0).length
    rw [setsize_length]
    simp only [List.length_append, List.length_replicate]
    omega

theorem c9_witness :
    run 2 ⟨[99], 0, 0, false⟩ s0 = some (.ok (⟨[99], 1, 0, true⟩, s0)) ∧
    ([99] : List Int).length ≤ ([99] : List Int).length :=
  ⟨by decide, c9_memory_monotone.2.2.2 2 ⟨[99], 0, 0, false⟩ s0 ⟨[99], 1, 0, true⟩ s0 (by decide)⟩

/- C9 counterexample: in part_000, resetting a VM whose buffer has grown to 5
cells from a 3-cell image shrinks its memory size from 5 to 3. -/
theorem c9_counterexample :
    (P0.reset ⟨[9, 9, 9, 9, 9], 3, 3, 3, true, true⟩ [1, 2, 3] 4).mem.length
      < (⟨[9, 9, 9, 9, 9], 3, 3, 3, true, true⟩ : P0.VM0).mem.length := by
  decide

/- The feedback loop can only return by observing a halted instance at the
top of the while loop. -/
theorem feedback_exit : ∀ (rfuel lfuel : Nat) (vms : List VM) (i : Nat) (s : Sys)
    (out : List VM × Nat × Sys),
    feedback rfuel lfuel vms i s = some (.ok out) →
    ((out.1.getD out.2.1 default).halted = true)
  | rfuel, 0, vms, i, s, out => by
    intro hok
    unfold feedback at hok
    split_ifs at hok with hh
    simp only [Option.some.injEq, Res.ok.injEq] at hok
    rw [← hok]
    exact hh
  | rfuel, lfuel + 1, vms, i, s, out => by
    intro hok
    unfold feedback at hok
    split_ifs at hok with hh
    · simp only [Option.some.injEq, Res.ok.injEq] at hok
      rw [← hok]
      exact hh
    · cases hr : run rfuel (vms.getD i default) s with
      | none =>
        rw [hr] at hok
        exact absurd hok (by simp)
      | some res =>
        rw [hr] at hok
        cases res with
        | err e => exact absurd hok (by simp)
        | ok pr =>
          obtain ⟨v', s'⟩ := pr
          have hok2 : feedback rfuel lfuel (vms.set i v') ((i + 1) % STAGES) s'
              = some (.ok out) := hok
          exact feedback_exit rfuel lfuel (vms.set i v') ((i + 1) % STAGES) s' out hok2

/-- C4 (amended): in the feedback pipeline, after the first round the final
output is pushed back into the shared queue and the loop starts at instance
0, so the first instance consumes it next; instances are then run in fixed
cyclic order 0,1,...,STAGES-1,0,... but the loop stops as soon as the
instance whose turn it is has already halted — which need not be the last
instance — and the trial result is the next value popped from the shared
queue at that point.  (Only when the instances halt in index order within
one final cycle does this equal the last output the last instance produced
before halting.) -/
theorem c4_feedback_loop :
    (∀ (rfuel lfuel : Nat) (vms : List VM) (i : Nat) (s : Sys) (out : List VM × Nat × Sys),
      feedback rfuel lfuel vms i s = some (.ok out) →
      ((out.1.getD out.2.1 default).halted = true)) ∧
    (∀ (rfuel lfuel : Nat) (vms : List VM) (i : Nat) (s : Sys),
      (vms.getD i default).halted = false →
      feedback rfuel (lfuel + 1) vms i s =
        (match run rfuel (vms.getD i default) s with
         | none => none
         | some (.err e) => some (.err e)
         | some (.ok (v', s')) => feedback rfuel lfuel (vms.set i v') ((i + 1) % STAGES) s')) := by
  constructor
  · exact feedback_exit
  · intro rfuel lfuel vms i s hnh
    have he : feedback rfuel (lfuel + 1) vms i s =
        (if (vms.getD i default).halted then some (.ok (vms, i, s))
         else match run rfuel (vms.getD i default) s with
           | none => none
           | some (.err e) => some (.err e)
           | some (.ok (v', s')) => feedback rfuel lfuel (vms.set i v') ((i + 1) % STAGES) s') := rfl
    rw [he, if_neg (by rw [hnh]; simp)]

theorem c4_witness :
    feedback 1 0 [⟨[99], 0, 0, true⟩] 0 s0 = some (.ok ([⟨[99], 0, 0, true⟩], 0, s0)) ∧
    ((([⟨[99], 0, 0, true⟩] : List VM).getD 0 default).halted = true) :=
  ⟨by decide,
   c4_feedback_loop.1 1 0 [⟨[99], 0, 0, true⟩] 0 s0 ([⟨[99], 0, 0, true⟩], 0, s0) (by decide)⟩

/- C4 counterexample: on progC4 with phases 5,6,7,8,9 the feedback loop of
maxamp part 2 terminates (exit index 0, result 0) while the LAST instance
has never halted: the loop did not run "until the last instance becomes
Halted", and the last instance never produced a final pre-halt output. -/
set_option maxRecDepth 500000 in
set_option maxHeartbeats 4000000 in
theorem c4_counterexample : cexC4view = some (false, 0, 0) := by decide

/- Splitting the permutation do-while loop: iterating f1 + f2 times is
iterating f1 times and, if still running, f2 more. -/
theorem maxampGo_split (rfuel : Nat) (ref : VM) (f1 f2 : Nat) :
    ∀ st : List VM × List Int × Int × Sys,
    maxampGo rfuel ref (f1 + f2) st =
      (match maxampGo rfuel ref f1 st with
       | some (.ok (.more st')) => maxampGo rfuel ref f2 st'
       | other => other) := by
  induction f1 with
  | zero =>
    intro st
    rw [Nat.zero_add]
    have h0 : maxampGo rfuel ref 0 st = some (.ok (.more st)) := rfl
    rw [h0]
  | succ n ih =>
    intro st
    obtain ⟨vms, phase, amax, s⟩ := st
    have harith : n + 1 + f2 = (n + f2) + 1 := by omega
    rw [harith]
    have he1 : ∀ (fl : Nat), maxampGo rfuel ref (fl + 1) (vms, phase, amax, s) =
        (match round1 rfuel phase (vms.map (fun d => copyvm d ref)) s 0 with
         | none => none
         | some (.err e) => some (.err e)
         | some (.ok (vms'', s', a)) =>
           match next_perm phase with
           | none => some (.ok (.done (if a > amax then a else amax)))
           | some ph' => maxampGo rfuel ref fl (vms'', ph', (if a > amax then a else amax), s')) :=
      fun _ => rfl
    rw [he1 (n + f2), he1 n]
    cases hr : round1 rfuel phase (vms.map (fun d => copyvm d ref)) s 0 with
    | none => rfl
    | some res =>
      cases res with
      | err e => rfl
      | ok pr =>
        obtain ⟨vms'', s', a⟩ := pr
        cases hnp : next_perm phase with
        | none => rfl
        | some ph' =>
          exact ih (vms'', ph', (if a > amax then a else amax), s')

/- maxamp part 1 is the iterated loop, projected to its final answer. -/
theorem maxamp1_eq_maxampGo (rfuel : Nat) (ref : VM) :
    ∀ (fuel : Nat) (vms : List VM) (phase : List Int) (amax : Int) (s : Sys),
    maxamp1 rfuel ref fuel vms phase amax s =
      (match maxampGo rfuel ref fuel (vms, phase, amax, s) with
       | none => none
       | some (.err e) => some (.err e)
       | some (.ok (.more _)) => none
       | some (.ok (.done a)) => some (.ok a)) := by
  intro fuel
  induction fuel with
  | zero =>
    intro vms phase amax s
    rfl
  | succ n ih =>
    intro vms phase amax s
    have he1 : maxamp1 rfuel ref (n + 1) vms phase amax s =
        (match round1 rfuel phase (vms.map (fun d => copyvm d ref)) s 0 with
         | none => none
         | some (.err e) => some (.err e)
         | some (.ok (vms'', s', a)) =>
           match next_perm phase with
           | none => some (.ok (if a > amax then a else amax))
           | some ph' => maxamp1 rfuel ref n vms'' ph' (if a > amax then a else amax) s') := rfl
    have he2 : maxampGo rfuel ref (n + 1) (vms, phase, amax, s) =
        (match round1 rfuel phase (vms.map (fun d => copyvm d ref)) s 0 with
         | none => none
         | some (.err e) => some (.err e)
         | some (.ok (vms'', s', a)) =>
           match next_perm phase with
           | none => some (.ok (.done (if a > amax then a else amax)))
           | some ph' => maxampGo rfuel ref n (vms'', ph', (if a > amax then a else amax), s')) := rfl
    rw [he1, he2]
    cases hr : round1 rfuel phase (vms.map (fun d => copyvm d ref)) s 0 with
    | none => rfl
    | some res =>
      cases res with
      | err e => rfl
      | ok pr =>
        obtain ⟨vms'', s', a⟩ := pr
        cases hnp : next_perm phase with
        | none => rfl
        | some ph' =>
          exact ih vms'' ph' (if a > amax then a else amax) s'

/- The do-while accumulation is a fold of max seeded with -1, and such a fold
is invariant under permuting the list of trials. -/
theorem maxampFold_eq_foldl_max (f : List Int → Int) (ps : List (List Int)) :
    maxampFold f ps = ps.foldl (fun m q => max m (f q)) (-1) := by
  unfold maxampFold
  suffices h : ∀ (l : List (List Int)) (init : Int),
      l.foldl (fun amax p => if f p > amax then f p else amax) init
        = l.foldl (fun m q => max m (f q)) init from h ps (-1)
  intro l
  induction l with
  | nil => intro init; rfl
  | cons x xs ih =>
    intro init
    have hstep : (if f x > init then f x else init) = max init (f x) := by
      split_ifs with h <;> omega
    rw [List.foldl_cons, List.foldl_cons, hstep]
    exact ih (max init (f x))

theorem foldl_max_perm (f : List Int → Int) (l1 l2 : List (List Int)) (hp : l1.Perm l2) :
    ∀ init : Int,
    l1.foldl (fun m q => max m (f q)) init = l2.foldl (fun m q => max m (f q)) init := by
  induction hp with
  | nil => intro init; rfl
  | cons x _ ih =>
    intro init
    simp only [List.foldl_cons]
    exact ih _
  | swap x y l =>
    intro init
    simp only [List.foldl_cons]
    have : max (max init (f y)) (f x) = max (max init (f x)) (f y) := by omega
    rw [this]
  | trans _ _ ih1 ih2 =>
    intro init
    rw [ih1, ih2]

theorem maxampFold_perm (f : List Int → Int) (l1 l2 : List (List Int)) (hp : l1.Perm l2) :
    maxampFold f l1 = maxampFold f l2 := by
  rw [maxampFold_eq_foldl_max, maxampFold_eq_foldl_max]
  exact foldl_max_perm f l1 l2 hp (-1)

set_option maxRecDepth 200000 in
/-- C5 (amended): starting from the 5 phase values in ascending order, the
next-permutation loop tries exactly 120 pairwise-distinct permutations of
them, enumerated in strictly increasing lexicographic order, and next_perm
returns 0 exactly at the last permutation 4,3,2,1,0; the do-while
accumulation returns the maximum of the sentinel -1 and all per-permutation
trial results (hence the true maximum over all permutations whenever some
result is at least -1, but not when every result is below -1), and this
accumulated value is invariant under the enumeration order of the trials. -/
theorem c5_search_enumeration :
    (permChain 130 [0, 1, 2, 3, 4]).length = 120 ∧
    (permChain 130 [0, 1, 2, 3, 4]).Nodup ∧
    (∀ p ∈ permChain 130 [0, 1, 2, 3, 4], p.Perm [0, 1, 2, 3, 4]) ∧
    chainLexb (permChain 130 [0, 1, 2, 3, 4]) = true ∧
    (∀ p ∈ permChain 130 [0, 1, 2, 3, 4], (next_perm p = none ↔ p = [4, 3, 2, 1, 0])) ∧
    (∀ (f : List Int → Int) (ps : List (List Int)),
      maxampFold f ps = ps.foldl (fun m q => max m (f q)) (-1)) ∧
    (∀ (f : List Int → Int) (l1 l2 : List (List Int)), l1.Perm l2 →
      maxampFold f l1 = maxampFold f l2) := by
  refine ⟨?_, ?_, ?_, ?_, ?_, maxampFold_eq_foldl_max, maxampFold_perm⟩
  · decide
  · decide
  · decide
  · decide
  · decide

/- The four stages of the search evaluation: 33 + 33 + 33 + 31 fuel covers the
120 iterations, through the recorded intermediate loop states. -/
set_option maxRecDepth 400000 in
set_option maxHeartbeats 8000000 in
theorem maxampGoC5_1 : maxampGo 10 refC5 33 (amps0, [0, 1, 2, 3, 4], -1, s0)
    = some (.ok (.more midC5a)) := by decide

set_option maxRecDepth 400000 in
set_option maxHeartbeats 8000000 in
theorem maxampGoC5_2 : maxampGo 10 refC5 33 midC5a = some (.ok (.more midC5b)) := by decide

set_option maxRecDepth 400000 in
set_option maxHeartbeats 8000000 in
theorem maxampGoC5_3 : maxampGo 10 refC5 33 midC5b = some (.ok (.more midC5c)) := by decide

set_option maxRecDepth 400000 in
set_option maxHeartbeats 8000000 in
theorem maxampGoC5_4 : maxampGo 10 refC5 31 midC5c = some (.ok (.done (-1))) := by decide

/- The 120-permutation chain in six chunks of 20, and the per-permutation
pipeline result on each chunk. -/
set_option maxRecDepth 200000 in
set_option maxHeartbeats 4000000 in
theorem permChainC5_split : permChain 130 [0, 1, 2, 3, 4] =
    permChain 19 [0, 1, 2, 3, 4] ++ permChain 19 [0, 4, 2, 1, 3] ++
    permChain 19 [1, 3, 4, 0, 2] ++ permChain 19 [2, 3, 0, 1, 4] ++
    permChain 19 [3, 1, 2, 0, 4] ++ permChain 30 [4, 0, 3, 1, 2] := by decide

set_option maxRecDepth 400000 in
set_option maxHeartbeats 8000000 in
theorem pipeC5_1 : ∀ p ∈ permChain 19 [0, 1, 2, 3, 4], pipe1 p = some (.ok (-2)) := by decide

set_option maxRecDepth 400000 in
set_option maxHeartbeats 8000000 in
theorem pipeC5_2 : ∀ p ∈ permChain 19 [0, 4, 2, 1, 3], pipe1 p = some (.ok (-2)) := by decide

set_option maxRecDepth 400000 in
set_option maxHeartbeats 8000000 in
theorem pipeC5_3 : ∀ p ∈ permChain 19 [1, 3, 4, 0, 2], pipe1 p = some (.ok (-2)) := by decide

set_option maxRecDepth 400000 in
set_option maxHeartbeats 8000000 in
theorem pipeC5_4 : ∀ p ∈ permChain 19 [2, 3, 0, 1, 4], pipe1 p = some (.ok (-2)) := by decide

set_option maxRecDepth 400000 in
set_option maxHeartbeats 8000000 in
theorem pipeC5_5 : ∀ p ∈ permChain 19 [3, 1, 2, 0, 4], pipe1 p = some (.ok (-2)) := by decide

set_option maxRecDepth 400000 in
set_option maxHeartbeats 8000000 in
theorem pipeC5_6 : ∀ p ∈ permChain 30 [4, 0, 3, 1, 2], pipe1 p = some (.ok (-2)) := by decide

/- C5 counterexample: on progC5 every one of the 120 permutations yields the
pipeline result -2, so the maximum pipeline result over all permutations is
-2, but the search returns its sentinel -1. -/
theorem c5_counterexample :
    maxamp1C5 = some (.ok (-1)) ∧
    (∀ p ∈ permChain 130 [0, 1, 2, 3, 4], pipe1 p = some (.ok (-2))) := by
  constructor
  · have hsA : maxampGo 10 refC5 130 (amps0, [0, 1, 2, 3, 4], -1, s0)
        = (match maxampGo 10 refC5 33 (amps0, [0, 1, 2, 3, 4], -1, s0) with
           | some (.ok (.more st')) => maxampGo 10 refC5 97 st'
           | other => other) := maxampGo_split 10 refC5 33 97 _
    rw [maxampGoC5_1] at hsA
    have hsA2 : maxampGo 10 refC5 130 (amps0, [0, 1, 2, 3, 4], -1, s0)
        = maxampGo 10 refC5 97 midC5a := hsA
    have hsB : maxampGo 10 refC5 97 midC5a
        = (match maxampGo 10 refC5 33 midC5a with
           | some (.ok (.more st')) => maxampGo 10 refC5 64 st'
           | other => other) := maxampGo_split 10 refC5 33 64 _
    rw [maxampGoC5_2] at hsB
    have hsB2 : maxampGo 10 refC5 97 midC5a = maxampGo 10 refC5 64 midC5b := hsB
    have hsC : maxampGo 10 refC5 64 midC5b
        = (match maxampGo 10 refC5 33 midC5b with
           | some (.ok (.more st')) => maxampGo 10 refC5 31 st'
           | other => other) := maxampGo_split 10 refC5 33 31 _
    rw [maxampGoC5_3] at hsC
    have hsC2 : maxampGo 10 refC5 64 midC5b = maxampGo 10 refC5 31 midC5c := hsC
    have hfin : maxampGo 10 refC5 130 (amps0, [0, 1, 2, 3, 4], -1, s0)
        = some (.ok (.done (-1))) :=
      hsA2.trans (hsB2.trans (hsC2.trans maxampGoC5_4))
    show maxamp1 10 refC5 130 amps0 [0, 1, 2, 3, 4] (-1) s0 = some (.ok (-1))
    rw [maxamp1_eq_maxampGo, hfin]
  · intro p hp
    rw [permChainC5_split] at hp
    simp only [List.mem_append] at hp
    rcases hp with ((((h | h) | h) | h) | h) | h
    · exact pipeC5_1 p h
    · exact pipeC5_2 p h
    · exact pipeC5_3 p h
    · exact pipeC5_4 p h
    · exact pipeC5_5 p h
    · exact pipeC5_6 p h
